import Mathlib

/-!
Verification of the GPX track-point-to-waypoint converter
(`gpx_converter.py`) against its specification.

The Python source is shallowly embedded below.  The embedding choices are:

* An input GPX document is modelled at the shape demanded by the input
  contract (zero or more `trk` elements, each holding zero or more `trkseg`
  elements, each holding zero or more `trkpt` elements).  On documents of
  this shape the source's descendant searches (`.//gpx:trk` etc.) coincide
  with direct iteration over the nested lists.
* Python `datetime` values are linearised to a total microsecond count
  (`PyDateTime.toMicros`).  Comparison of naive datetimes and addition of a
  `timedelta` agree with this linearisation, so the chunking loop is
  modelled directly on microsecond keys, with
  `timedelta(seconds=120) = 120000000` microseconds.
* `datetime.fromisoformat` (CPython 3.11 semantics) is modelled on the
  full-timestamp shapes that GPX time texts take after the source's
  `Z -> 0` substitution: `YYYY-MM-DD` + one arbitrary separator character +
  `HH:MM:SS`, optionally followed by `.` or `,` and one or more fraction
  digits (only the first six contribute microseconds), with calendar and
  clock range checks.  Other forms accepted by CPython (date-only strings,
  short times, timezone offsets) do not occur in the analysed behaviours
  and are mapped to `none`.
* File writes are returned as an explicit log (`List ChunkFile`) instead of
  performed; the error branch carries an empty log because every
  `fromisoformat` failure is raised in the extraction loop (source lines
  27-37), before the first `write_chunk` call (lines 53-71).
* The source interleaves `write_chunk` calls with the scan over sorted
  points; the model separates the chunk decomposition (`chunkLoop`) from
  per-chunk serialisation (`write_chunk` / `numberChunks`).  Since writing
  a chunk only appends to the write log, the two presentations agree.
* Python `list.sort` is a stable sort by the timestamp key; it is modelled
  by `List.insertionSort` on the key order, which is also stable.
-/

deriving instance DecidableEq for Except

namespace GpxConv

/-- Result of `datetime.fromisoformat`: a naive Python `datetime`. -/
structure PyDateTime where
  year : Nat
  month : Nat
  day : Nat
  hour : Nat
  minute : Nat
  second : Nat
  microsecond : Nat
deriving DecidableEq

/-- Numeric value of a list of decimal digit characters. -/
def digitsToNat (ds : List Char) : Nat :=
  ds.foldl (fun a c => a * 10 + (c.toNat - 48)) 0

/-- Read exactly `n` decimal digits from the front of `cs`. -/
def readNDigits (n : Nat) (cs : List Char) : Option (Nat × List Char) :=
  let pre := cs.take n
  if pre.length == n && pre.all Char.isDigit then
    some (digitsToNat pre, cs.drop n)
  else
    none

/-- Consume one expected character. -/
def expectChar (c : Char) : List Char → Option (List Char)
  | [] => none
  | d :: cs => if d == c then some cs else none

/-- Gregorian leap-year rule, as used by Python `datetime`. -/
def isLeapYear (y : Nat) : Bool :=
  (y % 4 == 0 && y % 100 != 0) || y % 400 == 0

/-- Number of days in a month of a given year. -/
def daysInMonth (y m : Nat) : Nat :=
  if m == 2 then (if isLeapYear y then 29 else 28)
  else if m == 4 || m == 6 || m == 9 || m == 11 then 30
  else 31

/-- Microseconds denoted by a fractional-seconds digit string: CPython keeps
the first six digits, padding shorter strings with zeros. -/
def fracToMicros (ds : List Char) : Nat :=
  digitsToNat (ds.take 6 ++ List.replicate (6 - ds.length) '0')

/-- Model of CPython 3.11 `datetime.fromisoformat`, restricted to full
timestamps `YYYY-MM-DD{sep}HH:MM:SS[.ffffff]` (see the module comment).
CPython accepts any single character as the date-time separator, requires
the seconds field to be exactly two digits, and rejects out-of-range
calendar or clock fields (including year 0). -/
def fromisoformat (s : String) : Option PyDateTime := do
  let cs := s.toList
  let (y, cs) ← readNDigits 4 cs
  let cs ← expectChar '-' cs
  let (mo, cs) ← readNDigits 2 cs
  let cs ← expectChar '-' cs
  let (d, cs) ← readNDigits 2 cs
  let cs ← (match cs with
    | _ :: rest => some rest
    | [] => none)
  let (h, cs) ← readNDigits 2 cs
  let cs ← expectChar ':' cs
  let (mi, cs) ← readNDigits 2 cs
  let cs ← expectChar ':' cs
  let (sec, cs) ← readNDigits 2 cs
  let micro ← (match cs with
    | [] => some 0
    | c :: rest =>
      if (c == '.' || c == ',') && !rest.isEmpty && rest.all Char.isDigit then
        some (fracToMicros rest)
      else
        none)
  if 1 ≤ y && y ≤ 9999 && 1 ≤ mo && mo ≤ 12 && 1 ≤ d && d ≤ daysInMonth y mo
      && h ≤ 23 && mi ≤ 59 && sec ≤ 59 then
    some ⟨y, mo, d, h, mi, sec, micro⟩
  else
    none

/-- Days before January 1st of month `m` in a common year. -/
def daysBeforeMonthCommon : Nat → Nat
  | 1 => 0
  | 2 => 31
  | 3 => 59
  | 4 => 90
  | 5 => 120
  | 6 => 151
  | 7 => 181
  | 8 => 212
  | 9 => 243
  | 10 => 273
  | 11 => 304
  | 12 => 334
  | _ => 0

/-- Days before the first of month `m` of year `y`. -/
def daysBeforeMonth (y m : Nat) : Nat :=
  daysBeforeMonthCommon m + (if 2 < m && isLeapYear y then 1 else 0)

/-- Proleptic-Gregorian ordinal of a calendar day (Python
`date.toordinal`): day 1 is 0001-01-01. -/
def toOrdinal (y m d : Nat) : Nat :=
  (y - 1) * 365 + (y - 1) / 4 - (y - 1) / 100 + (y - 1) / 400
    + daysBeforeMonth y m + d

/-- Linearisation of a naive Python datetime to total microseconds.
Naive-datetime comparison and `timedelta` addition agree with this
linearisation, so the chunking arithmetic is carried out on it. -/
def PyDateTime.toMicros (dt : PyDateTime) : Nat :=
  ((((toOrdinal dt.year dt.month dt.day) * 24 + dt.hour) * 60 + dt.minute)
      * 60 + dt.second) * 1000000 + dt.microsecond

/-- Python `time_str.replace("Z", "0")` (source line 34): every occurrence
of the character `Z` becomes the digit `0`. -/
def replaceZ (s : String) : String :=
  ⟨s.data.map fun c => if c == 'Z' then '0' else c⟩

/-- A `trkpt` element as the source reads it: `lat`/`lon` attributes, an
optional `ele` child text and an optional `time` child text. -/
structure Trkpt where
  lat : String
  lon : String
  ele : Option String
  time : Option String
deriving DecidableEq

/-- A GPX document at the shape of the input contract:
tracks, containing segments, containing track points. -/
structure GpxDoc where
  trks : List (List (List Trkpt))
deriving DecidableEq

/-- All track points of the document, in document order — the order the
nested `findall` loops of source lines 27-29 visit them. -/
def allTrkpts (doc : GpxDoc) : List Trkpt :=
  doc.trks.flatten.flatten

/-- Timestamp key of an optional time text: the substituted text parsed and
linearised to microseconds; `none` when the element is absent or the parse
fails. -/
def timeKey? (t : Option String) : Option Nat :=
  t.bind fun s => (fromisoformat (replaceZ s)).map PyDateTime.toMicros

/-- Track points whose `time` child parses after the substitution: exactly
the points the extraction loop retains. -/
def hasParsableTime (p : Trkpt) : Bool :=
  match p.time with
  | none => false
  | some t => (fromisoformat (replaceZ t)).isSome

/-- Track points whose `time` child is present but fails to parse: exactly
the points on which the extraction loop raises. -/
def badTime (p : Trkpt) : Bool :=
  match p.time with
  | none => false
  | some t => (fromisoformat (replaceZ t)).isNone

/-- Extraction loop (source lines 24-37): walk the points in document
order; a point without a `time` child is skipped, a point whose time text
fails to parse raises (modelled as `Except.error` carrying the substituted
text), and a retained point contributes its microsecond key. -/
def extractLoop : List Trkpt → Except String (List (Nat × Trkpt))
  | [] => .ok []
  | p :: ps =>
    match p.time with
    | none => extractLoop ps
    | some t =>
      match fromisoformat (replaceZ t) with
      | none => .error (replaceZ t)
      | some dt =>
        match extractLoop ps with
        | .error e => .error e
        | .ok rest => .ok ((dt.toMicros, p) :: rest)

/-- The 120-second chunk window, in microseconds
(`timedelta(seconds=120)`, source line 47). -/
def chunk_duration : Nat := 120 * 1000000

/-- Output waypoint: `lat`/`lon` attributes, optional `ele` and `time`
child texts, and the generated `name` child text. -/
structure Waypoint where
  lat : String
  lon : String
  ele : Option String
  time : Option String
  name : String
deriving DecidableEq

/-- One written chunk file: directory (the parent of the requested output
path), file name, the attributes set on the root `gpx` element, and the
waypoints in file order. -/
structure ChunkFile where
  dir : String
  filename : String
  rootAttrs : List (String × String)
  waypoints : List Waypoint
deriving DecidableEq

/-- Python `f-string` zero padding `{n:0wd}` for a natural number: the
decimal digits, left-padded with zeros to a minimum width `w`. -/
def pyPad (w n : Nat) : String :=
  String.mk (List.replicate (w - (toString n).length) '0') ++ toString n

/-- Generated waypoint name (source line 111): `WPT` followed by the
per-chunk counter zero-padded to width 3. -/
def wptName (k : Nat) : String := "WPT" ++ pyPad 3 k

/-- The waypoint loop of `write_chunk` (source lines 91-113): each point
becomes a waypoint carrying the point's fields verbatim and the name for
the running counter, which starts at `k`. -/
def wptList (k : Nat) : List Trkpt → List Waypoint
  | [] => []
  | p :: ps =>
    { lat := p.lat, lon := p.lon, ele := p.ele, time := p.time,
      name := wptName k } :: wptList (k + 1) ps

/-- Attributes set on the output root element (source lines 85-87). -/
def gpxRootAttrs : List (String × String) :=
  [("version", "1.1"), ("creator", "GPX Converter"),
   ("xmlns", "http://www.topografix.com/GPX/1/1")]

/-- Model of `write_chunk` (source lines 76-118): the chunk file written
for `pts` under chunk number `chunkNumber`, sibling to the requested
output path (`dir`, `stem` are that path's parent and stem). -/
def write_chunk (dir stem : String) (chunkNumber : Nat) (pts : List Trkpt) :
    ChunkFile :=
  { dir := dir
    filename := stem ++ "_chunk_" ++ pyPad 2 chunkNumber ++ ".gpx"
    rootAttrs := gpxRootAttrs
    waypoints := wptList 0 pts }

/-- The chunk-splitting loop (source lines 53-66), with the write-side
effects abstracted to the list of buffers flushed: arguments are the
remaining points, `chunk_start`, `chunk_number` and `current_chunk`;
the result is the list of flushed buffers (in flush order) and the final
value of `chunk_number`.  A buffer is flushed when a point at or beyond
`chunk_start + chunk_duration` arrives (only if non-empty, with
`chunk_number` incremented) and once more at the end if non-empty (without
incrementing `chunk_number`, mirroring lines 69-73). -/
def chunkLoop : List (Nat × Trkpt) → Nat → Nat → List (Nat × Trkpt) →
    List (List (Nat × Trkpt)) × Nat
  | [], _, chunkNumber, current =>
    (if current = [] then [] else [current], chunkNumber)
  | (t, p) :: rest, chunkStart, chunkNumber, current =>
    if chunkStart + chunk_duration ≤ t then
      if current = [] then
        chunkLoop rest t chunkNumber [(t, p)]
      else
        let r := chunkLoop rest t (chunkNumber + 1) [(t, p)]
        (current :: r.1, r.2)
    else
      chunkLoop rest chunkStart chunkNumber (current ++ [(t, p)])

/-- Chunk decomposition of a (sorted) point list: `chunk_start` is seeded
with the first point's timestamp and `chunk_number` with 1 (source lines
48-50). -/
def splitChunks : List (Nat × Trkpt) → List (List (Nat × Trkpt)) × Nat
  | [] => ([], 1)
  | (t, p) :: rest => chunkLoop ((t, p) :: rest) t 1 []

/-- Timestamp of the first point of a chunk (`chunk_start` re-anchors to
it whenever a new chunk opens). -/
def chunkStartOf : List (Nat × Trkpt) → Nat
  | [] => 0
  | x :: _ => x.1

/-- Serialise the flushed chunks under consecutive chunk numbers: the
`k`-th flushed chunk is written by `write_chunk` under number `n + k`,
matching the value `chunk_number` has at each `write_chunk` call site. -/
def numberChunks (dir stem : String) : Nat → List (List (Nat × Trkpt)) →
    List ChunkFile
  | _, [] => []
  | n, c :: cs =>
    write_chunk dir stem n (c.map Prod.snd) :: numberChunks dir stem (n + 1) cs

/-- Observable outcome of a successful run: either the informational
no-points message (source lines 39-41), or the totals of the final summary
line (source line 73). -/
inductive ConvertOutcome where
  | noPoints (message : String)
  | converted (totalWaypoints : Nat) (chunkNumber : Nat)
deriving DecidableEq

/-- Key order used to sort the extracted points (source line 44 sorts by
the timestamp component). -/
def keyLE (a b : Nat × Trkpt) : Prop := a.1 ≤ b.1

instance : DecidableRel keyLE := fun a b => Nat.decLe a.1 b.1

instance : IsTotal (Nat × Trkpt) keyLE := ⟨fun a b => Nat.le_total a.1 b.1⟩

instance : IsTrans (Nat × Trkpt) keyLE := ⟨fun _ _ _ => Nat.le_trans⟩

/-- Model of `convert_trkpt_to_wpt` (source lines 13-73).  The first
component is the log of files written, the second the run's outcome: an
extraction failure propagates as `Except.error` (with an empty write log,
since extraction precedes every write), an empty extraction yields the
informational message, and otherwise the sorted points are decomposed into
chunks and written. -/
def convert_trkpt_to_wpt (dir stem : String) (doc : GpxDoc) :
    List ChunkFile × Except String ConvertOutcome :=
  match extractLoop (allTrkpts doc) with
  | .error e => ([], .error e)
  | .ok pts =>
    if pts = [] then
      ([], .ok (.noPoints "No track points with valid timestamps found"))
    else
      let sorted := List.insertionSort keyLE pts
      let r := splitChunks sorted
      let files := numberChunks dir stem 1 r.1
      (files,
        .ok (.converted ((files.map fun f => f.waypoints.length).sum) r.2))

/-- Exit code of `main` (source lines 140-144): 0 when the conversion
returns, 1 when it raises. -/
def mainExitCode (dir stem : String) (doc : GpxDoc) : Nat :=
  match (convert_trkpt_to_wpt dir stem doc).2 with
  | .ok _ => 0
  | .error _ => 1

/-- Files written by a run, whether or not it aborts. -/
def filesWritten (dir stem : String) (doc : GpxDoc) : List ChunkFile :=
  (convert_trkpt_to_wpt dir stem doc).1

/-- Total timestamp key of a waypoint, defaulting to 0 when its time text
is absent or unparsable (the claims using it also assert the key exists). -/
def wKeyD (w : Waypoint) : Nat := (timeKey? w.time).getD 0

/-- Boundary relation between consecutive flushed chunks: the later chunk
opens at least one full window after the earlier chunk's start. -/
abbrev chunkBoundaryRel (c c' : List (Nat × Trkpt)) : Prop :=
  chunkStartOf c + chunk_duration ≤ chunkStartOf c'

/-- A document with no track points at all. -/
def docEmpty : GpxDoc := ⟨[]⟩

/-- A six-point example document.  In document order the timestamped points
are scrambled (the sorted order is 12:00:00, 12:00:10, 12:02:10, 12:02:20,
12:05:00, spanning three 120-second chunks), one point carries a
fractional-second `Z` time, and one point has no time child. -/
def exDoc : GpxDoc :=
  ⟨[[[{ lat := "3", lon := "3", ele := none,
        time := some "2024-06-01T12:02:10" },
      { lat := "1", lon := "1", ele := some "10.0",
        time := some "2024-06-01T12:00:00" },
      { lat := "0", lon := "0", ele := none, time := none }],
     [{ lat := "5", lon := "5", ele := none,
        time := some "2024-06-01T12:05:00" }]],
    [[{ lat := "2", lon := "2", ele := some "20.5",
        time := some "2024-06-01T12:00:10.0Z" },
      { lat := "4", lon := "4", ele := none,
        time := some "2024-06-01T12:02:20" }]]]⟩

/-- A document whose single track point has the whole-second `Z`-suffixed
time text of the specification's parsing example. -/
def docC3 : GpxDoc :=
  ⟨[[[{ lat := "1", lon := "2", ele := none,
        time := some "2024-06-01T12:00:00Z" }]]]⟩

/-- A document whose first two points have parsable timestamps more than
120 seconds apart (they would occupy two distinct chunks) and whose last
point has an unparsable time text. -/
def docC8 : GpxDoc :=
  ⟨[[[{ lat := "1", lon := "1", ele := none,
        time := some "2024-06-01T12:00:00.5Z" },
      { lat := "2", lon := "2", ele := none,
        time := some "2024-06-01T12:10:00" },
      { lat := "3", lon := "3", ele := none, time := some "bad" }]]]⟩

/-- The document `docC8` without its failing point. -/
def docC8good : GpxDoc :=
  ⟨[[[{ lat := "1", lon := "1", ele := none,
        time := some "2024-06-01T12:00:00.5Z" },
      { lat := "2", lon := "2", ele := none,
        time := some "2024-06-01T12:10:00" }]]]⟩

/-- The field-preservation example point: elevation text `123.4` and the
raw time text `2024-01-01T10:00:00Z`. -/
def pC6 : Trkpt :=
  { lat := "47.1", lon := "8.5", ele := some "123.4",
    time := some "2024-01-01T10:00:00Z" }

/-! ### Lemmas about the serialisation helpers -/

theorem wptList_length (k : Nat) (ps : List Trkpt) :
    (wptList k ps).length = ps.length := by
  induction ps generalizing k with
  | nil => rfl
  | cons p ps ih => simp [wptList, ih]

theorem wptList_fields (k : Nat) (ps : List Trkpt) :
    (wptList k ps).map (fun w => (w.lat, w.lon, w.ele, w.time)) =
      ps.map (fun p => (p.lat, p.lon, p.ele, p.time)) := by
  induction ps generalizing k with
  | nil => rfl
  | cons p ps ih => simp [wptList, ih]

theorem wptList_map_time (k : Nat) (ps : List Trkpt) :
    (wptList k ps).map Waypoint.time = ps.map Trkpt.time := by
  induction ps generalizing k with
  | nil => rfl
  | cons p ps ih => simp [wptList, ih]

theorem wptList_name_get (k : Nat) (ps : List Trkpt) (i : Nat)
    (hi : i < (wptList k ps).length) :
    ((wptList k ps).get ⟨i, hi⟩).name = wptName (k + i) := by
  induction ps generalizing k i with
  | nil => simp [wptList] at hi
  | cons p ps ih =>
    cases i with
    | zero => simp [wptList]
    | succ j =>
      have hj : j < (wptList (k + 1) ps).length := by
        simpa [wptList] using hi
      have := ih (k + 1) j hj
      simpa [wptList, Nat.add_assoc, Nat.add_comm 1 j] using this

theorem wptList_mem {w : Waypoint} (k : Nat) (ps : List Trkpt)
    (hw : w ∈ wptList k ps) :
    ∃ p ∈ ps, w.lat = p.lat ∧ w.lon = p.lon ∧ w.ele = p.ele ∧
      w.time = p.time := by
  induction ps generalizing k with
  | nil => simp [wptList] at hw
  | cons p ps ih =>
    rcases (by simpa [wptList] using hw :
        w = ({ lat := p.lat, lon := p.lon, ele := p.ele, time := p.time,
               name := wptName k } : Waypoint) ∨ w ∈ wptList (k + 1) ps) with
      h | h
    · exact ⟨p, List.mem_cons_self p ps, by simp [h]⟩
    · obtain ⟨q, hq, hfields⟩ := ih (k + 1) h
      exact ⟨q, List.mem_cons_of_mem p hq, hfields⟩

theorem numberChunks_length (dir stem : String) (n : Nat)
    (cs : List (List (Nat × Trkpt))) :
    (numberChunks dir stem n cs).length = cs.length := by
  induction cs generalizing n with
  | nil => rfl
  | cons c cs ih => simp [numberChunks, ih]

theorem numberChunks_get (dir stem : String) (n : Nat)
    (cs : List (List (Nat × Trkpt))) (i : Nat) (hi : i < cs.length)
    (hi' : i < (numberChunks dir stem n cs).length) :
    (numberChunks dir stem n cs).get ⟨i, hi'⟩ =
      write_chunk dir stem (n + i) ((cs.get ⟨i, hi⟩).map Prod.snd) := by
  induction cs generalizing n i with
  | nil => simp at hi
  | cons c cs ih =>
    cases i with
    | zero => simp [numberChunks]
    | succ j =>
      have hj : j < cs.length := by simpa using hi
      have hj' : j < (numberChunks dir stem (n + 1) cs).length := by
        simpa [numberChunks] using hi'
      have := ih (n + 1) j hj hj'
      simpa [numberChunks, Nat.add_assoc, Nat.add_comm 1 j] using this

theorem numberChunks_mem (dir stem : String) (n : Nat)
    (cs : List (List (Nat × Trkpt))) {f : ChunkFile}
    (hf : f ∈ numberChunks dir stem n cs) :
    ∃ c ∈ cs, f.waypoints = wptList 0 (c.map Prod.snd) := by
  induction cs generalizing n with
  | nil => simp [numberChunks] at hf
  | cons c cs ih =>
    rcases (by simpa [numberChunks] using hf :
        f = write_chunk dir stem n (c.map Prod.snd) ∨
          f ∈ numberChunks dir stem (n + 1) cs) with h | h
    · exact ⟨c, List.mem_cons_self c cs, by simp [h, write_chunk]⟩
    · obtain ⟨c', hc', hw⟩ := ih (n + 1) h
      exact ⟨c', List.mem_cons_of_mem c hc', hw⟩

theorem numberChunks_sum_lengths (dir stem : String) (n : Nat)
    (cs : List (List (Nat × Trkpt))) :
    ((numberChunks dir stem n cs).map fun f => f.waypoints.length).sum =
      (cs.map List.length).sum := by
  induction cs generalizing n with
  | nil => rfl
  | cons c cs ih =>
    simp [numberChunks, write_chunk, wptList_length, ih]

/-! ### Lemmas about the extraction loop -/

theorem extractLoop_ok_length {l : List Trkpt} {pts : List (Nat × Trkpt)}
    (h : extractLoop l = .ok pts) :
    pts.length = l.countP hasParsableTime := by
  induction l generalizing pts with
  | nil =>
    simp only [extractLoop, Except.ok.injEq] at h
    subst h
    rfl
  | cons p ps ih =>
    cases ht : p.time with
    | none =>
      simp only [extractLoop, ht] at h
      rw [ih h]
      simp [List.countP_cons, hasParsableTime, ht]
    | some t =>
      cases hp : fromisoformat (replaceZ t) with
      | none => simp [extractLoop, ht, hp] at h
      | some dt =>
        cases he : extractLoop ps with
        | error e => simp [extractLoop, ht, hp, he] at h
        | ok rest =>
          simp only [extractLoop, ht, hp, he, Except.ok.injEq] at h
          subst h
          rw [List.countP_cons]
          simp [hasParsableTime, ht, hp, ih he, Nat.add_comm]

theorem extractLoop_ok_mem {l : List Trkpt} {pts : List (Nat × Trkpt)}
    (h : extractLoop l = .ok pts) :
    ∀ x ∈ pts, x.2 ∈ l ∧ timeKey? x.2.time = some x.1 := by
  induction l generalizing pts with
  | nil =>
    simp only [extractLoop, Except.ok.injEq] at h
    subst h
    intro x hx
    simp at hx
  | cons p ps ih =>
    cases ht : p.time with
    | none =>
      simp only [extractLoop, ht] at h
      intro x hx
      obtain ⟨hmem, hkey⟩ := ih h x hx
      exact ⟨List.mem_cons_of_mem p hmem, hkey⟩
    | some t =>
      cases hp : fromisoformat (replaceZ t) with
      | none => simp [extractLoop, ht, hp] at h
      | some dt =>
        cases he : extractLoop ps with
        | error e => simp [extractLoop, ht, hp, he] at h
        | ok rest =>
          simp only [extractLoop, ht, hp, he, Except.ok.injEq] at h
          subst h
          intro x hx
          rcases List.mem_cons.mp hx with hx | hx
          · subst hx
            refine ⟨List.mem_cons_self p ps, ?_⟩
            simp [timeKey?, ht, hp]
          · obtain ⟨hmem, hkey⟩ := ih he x hx
            exact ⟨List.mem_cons_of_mem p hmem, hkey⟩

theorem extractLoop_all_none {l : List Trkpt}
    (h : ∀ p ∈ l, p.time = none) : extractLoop l = .ok [] := by
  induction l with
  | nil => rfl
  | cons p ps ih =>
    have hp := h p (List.mem_cons_self p ps)
    have hps := ih fun q hq => h q (List.mem_cons_of_mem p hq)
    simp [extractLoop, hp, hps]

theorem extractLoop_error_of_any {l : List Trkpt}
    (h : l.any badTime = true) : ∃ e, extractLoop l = .error e := by
  induction l with
  | nil => simp at h
  | cons p ps ih =>
    cases ht : p.time with
    | none =>
      have : ps.any badTime = true := by
        simpa [badTime, ht] using h
      obtain ⟨e, he⟩ := ih this
      exact ⟨e, by simp [extractLoop, ht, he]⟩
    | some t =>
      cases hp : fromisoformat (replaceZ t) with
      | none => exact ⟨replaceZ t, by simp [extractLoop, ht, hp]⟩
      | some dt =>
        have : ps.any badTime = true := by
          simpa [badTime, ht, hp] using h
        obtain ⟨e, he⟩ := ih this
        exact ⟨e, by simp [extractLoop, ht, hp, he]⟩

/-! ### Lemmas about the chunk-splitting loop

Throughout, the hypothesis `current = [] → ∃ q rest', pts = (start, q) :: rest'`
captures the initialisation of the scan: the buffer is empty only before the
first iteration, at which point `chunk_start` is the first point's timestamp.
It is preserved because the buffer receives a point at the end of every
iteration. -/

theorem chunkLoop_flatten (pts : List (Nat × Trkpt)) :
    ∀ (start n : Nat) (current : List (Nat × Trkpt)),
      (chunkLoop pts start n current).1.flatten = current ++ pts := by
  induction pts with
  | nil =>
    intro start n current
    by_cases h : current = [] <;> simp [chunkLoop, h]
  | cons y rest ih =>
    intro start n current
    obtain ⟨t, p⟩ := y
    simp only [chunkLoop]
    by_cases h1 : start + chunk_duration ≤ t
    · rw [if_pos h1]
      by_cases h2 : current = []
      · rw [if_pos h2]
        subst h2
        simpa using ih t n [(t, p)]
      · rw [if_neg h2]
        show (current :: (chunkLoop rest t (n + 1) [(t, p)]).1).flatten =
          current ++ ((t, p) :: rest)
        rw [List.flatten_cons, ih]
        simp
    · rw [if_neg h1]
      rw [ih]
      simp

theorem chunkLoop_count (pts : List (Nat × Trkpt)) :
    ∀ (start n : Nat) (current : List (Nat × Trkpt)),
      (current = [] → ∃ q rest', pts = (start, q) :: rest') →
      (chunkLoop pts start n current).2 + 1 =
        n + (chunkLoop pts start n current).1.length := by
  induction pts with
  | nil =>
    intro start n current hc
    have h2 : current ≠ [] := fun h => by
      obtain ⟨q, r', hq⟩ := hc h; simp at hq
    simp [chunkLoop, h2]
  | cons y rest ih =>
    intro start n current hc
    obtain ⟨t, p⟩ := y
    simp only [chunkLoop]
    by_cases h1 : start + chunk_duration ≤ t
    · rw [if_pos h1]
      by_cases h2 : current = []
      · exfalso
        obtain ⟨q, r', hq⟩ := hc h2
        simp only [List.cons.injEq, Prod.mk.injEq] at hq
        obtain ⟨⟨hts, -⟩, -⟩ := hq
        rw [hts] at h1
        simp only [chunk_duration] at h1
        omega
      · rw [if_neg h2]
        have hrec := ih t (n + 1) [(t, p)] (fun hh => by simp at hh)
        show (chunkLoop rest t (n + 1) [(t, p)]).2 + 1 =
          n + (current :: (chunkLoop rest t (n + 1) [(t, p)]).1).length
        rw [List.length_cons]
        omega
    · rw [if_neg h1]
      exact ih start n (current ++ [(t, p)]) (fun hh => by simp at hh)

theorem chunkLoop_ne_nil (pts : List (Nat × Trkpt)) :
    ∀ (start n : Nat) (current : List (Nat × Trkpt)),
      (current = [] → ∃ q rest', pts = (start, q) :: rest') →
      ∀ c ∈ (chunkLoop pts start n current).1, c ≠ [] := by
  induction pts with
  | nil =>
    intro start n current hc c hcmem
    have h2 : current ≠ [] := fun h => by
      obtain ⟨q, r', hq⟩ := hc h; simp at hq
    simp only [chunkLoop, if_neg h2] at hcmem
    have : c = current := by simpa using hcmem
    subst this
    exact h2
  | cons y rest ih =>
    intro start n current hc c hcmem
    obtain ⟨t, p⟩ := y
    simp only [chunkLoop] at hcmem
    by_cases h1 : start + chunk_duration ≤ t
    · rw [if_pos h1] at hcmem
      by_cases h2 : current = []
      · exfalso
        obtain ⟨q, r', hq⟩ := hc h2
        simp only [List.cons.injEq, Prod.mk.injEq] at hq
        obtain ⟨⟨hts, -⟩, -⟩ := hq
        rw [hts] at h1
        simp only [chunk_duration] at h1
        omega
      · rw [if_neg h2] at hcmem
        rcases List.mem_cons.mp (by simpa using hcmem) with hcc | hcc
        · subst hcc; exact h2
        · exact ih t (n + 1) [(t, p)] (fun hh => by simp at hh) c hcc
    · rw [if_neg h1] at hcmem
      exact ih start n (current ++ [(t, p)]) (fun hh => by simp at hh) c hcmem

theorem chunkLoop_head (pts : List (Nat × Trkpt)) :
    ∀ (start n : Nat) (current : List (Nat × Trkpt)), current ≠ [] →
      ∃ ext rest',
        (chunkLoop pts start n current).1 = (current ++ ext) :: rest' := by
  induction pts with
  | nil =>
    intro start n current h2
    exact ⟨[], [], by simp [chunkLoop, h2]⟩
  | cons y rest ih =>
    intro start n current h2
    obtain ⟨t, p⟩ := y
    simp only [chunkLoop]
    by_cases h1 : start + chunk_duration ≤ t
    · rw [if_pos h1, if_neg h2]
      exact ⟨[], (chunkLoop rest t (n + 1) [(t, p)]).1, by simp⟩
    · rw [if_neg h1]
      obtain ⟨ext, rest', hr⟩ := ih start n (current ++ [(t, p)]) (by simp)
      exact ⟨(t, p) :: ext, rest', by rw [hr]; simp⟩

theorem chunkLoop_bound (pts : List (Nat × Trkpt)) :
    ∀ (start n : Nat) (current : List (Nat × Trkpt)),
      (current ≠ [] → chunkStartOf current = start) →
      (∀ x ∈ current, x.1 < start + chunk_duration) →
      (current = [] → ∃ q rest', pts = (start, q) :: rest') →
      ∀ c ∈ (chunkLoop pts start n current).1, ∀ x ∈ c,
        x.1 < chunkStartOf c + chunk_duration := by
  induction pts with
  | nil =>
    intro start n current hstart hbound hc c hcmem x hx
    have h2 : current ≠ [] := fun h => by
      obtain ⟨q, r', hq⟩ := hc h; simp at hq
    simp only [chunkLoop, if_neg h2] at hcmem
    have : c = current := by simpa using hcmem
    subst this
    rw [hstart h2]
    exact hbound x hx
  | cons y rest ih =>
    intro start n current hstart hbound hc c hcmem x hx
    obtain ⟨t, p⟩ := y
    simp only [chunkLoop] at hcmem
    by_cases h1 : start + chunk_duration ≤ t
    · rw [if_pos h1] at hcmem
      by_cases h2 : current = []
      · exfalso
        obtain ⟨q, r', hq⟩ := hc h2
        simp only [List.cons.injEq, Prod.mk.injEq] at hq
        obtain ⟨⟨hts, -⟩, -⟩ := hq
        rw [hts] at h1
        simp only [chunk_duration] at h1
        omega
      · rw [if_neg h2] at hcmem
        rcases List.mem_cons.mp (by simpa using hcmem) with hcc | hcc
        · subst hcc
          rw [hstart h2]
          exact hbound x hx
        · refine ih t (n + 1) [(t, p)] (fun _ => rfl) ?_
            (fun hh => by simp at hh) c hcc x hx
          intro z hz
          have hz' : z = (t, p) := by simpa using hz
          subst hz'
          simp only [chunk_duration]
          omega
    · rw [if_neg h1] at hcmem
      refine ih start n (current ++ [(t, p)]) ?_ ?_
        (fun hh => by simp at hh) c hcmem x hx
      · intro _
        cases hcur : current with
        | nil =>
          obtain ⟨q, r', hq⟩ := hc hcur
          simp only [List.cons.injEq, Prod.mk.injEq] at hq
          obtain ⟨⟨hts, -⟩, -⟩ := hq
          simp [chunkStartOf, hts]
        | cons z zs =>
          have := hstart (by simp [hcur])
          rw [hcur] at this
          simpa [chunkStartOf] using this
      · intro z hz
        rcases List.mem_append.mp hz with hz | hz
        · exact hbound z hz
        · have hz' : z = (t, p) := by simpa using hz
          subst hz'
          exact Nat.not_le.mp h1

theorem chunkLoop_chain (pts : List (Nat × Trkpt)) :
    ∀ (start n : Nat) (current : List (Nat × Trkpt)),
      (current ≠ [] → chunkStartOf current = start) →
      (current = [] → ∃ q rest', pts = (start, q) :: rest') →
      List.Chain' chunkBoundaryRel (chunkLoop pts start n current).1 := by
  induction pts with
  | nil =>
    intro start n current hstart hc
    have h2 : current ≠ [] := fun h => by
      obtain ⟨q, r', hq⟩ := hc h; simp at hq
    simp [chunkLoop, h2]
  | cons y rest ih =>
    intro start n current hstart hc
    obtain ⟨t, p⟩ := y
    simp only [chunkLoop]
    by_cases h1 : start + chunk_duration ≤ t
    · rw [if_pos h1]
      by_cases h2 : current = []
      · rw [if_pos h2]
        exact ih t n [(t, p)] (fun _ => rfl) (fun hh => by simp at hh)
      · rw [if_neg h2]
        show List.Chain' chunkBoundaryRel
          (current :: (chunkLoop rest t (n + 1) [(t, p)]).1)
        rw [List.chain'_cons']
        refine ⟨?_, ih t (n + 1) [(t, p)] (fun _ => rfl)
          (fun hh => by simp at hh)⟩
        intro c hc'
        obtain ⟨ext, rest', hr⟩ :=
          chunkLoop_head rest t (n + 1) [(t, p)] (by simp)
        rw [hr] at hc'
        have hceq : (t, p) :: ext = c := by simpa using hc'
        subst hceq
        show chunkStartOf current + chunk_duration ≤ chunkStartOf ((t, p) :: ext)
        rw [hstart h2]
        exact h1
    · rw [if_neg h1]
      refine ih start n (current ++ [(t, p)]) ?_ (fun hh => by simp at hh)
      intro _
      cases hcur : current with
      | nil =>
        obtain ⟨q, r', hq⟩ := hc hcur
        simp only [List.cons.injEq, Prod.mk.injEq] at hq
        obtain ⟨⟨hts, -⟩, -⟩ := hq
        simp [chunkStartOf, hts]
      | cons z zs =>
        have := hstart (by simp [hcur])
        rw [hcur] at this
        simpa [chunkStartOf] using this

/-! ### Lemmas about the chunk decomposition -/

theorem splitChunks_flatten (pts : List (Nat × Trkpt)) :
    (splitChunks pts).1.flatten = pts := by
  cases pts with
  | nil => rfl
  | cons y rest =>
    obtain ⟨t, p⟩ := y
    simpa using chunkLoop_flatten ((t, p) :: rest) t 1 []

theorem splitChunks_count {pts : List (Nat × Trkpt)} (h : pts ≠ []) :
    (splitChunks pts).2 = (splitChunks pts).1.length := by
  cases pts with
  | nil => exact absurd rfl h
  | cons y rest =>
    obtain ⟨t, p⟩ := y
    have := chunkLoop_count ((t, p) :: rest) t 1 [] (fun _ => ⟨p, rest, rfl⟩)
    show (chunkLoop ((t, p) :: rest) t 1 []).2 =
      (chunkLoop ((t, p) :: rest) t 1 []).1.length
    omega

theorem splitChunks_ne_nil (pts : List (Nat × Trkpt)) :
    ∀ c ∈ (splitChunks pts).1, c ≠ [] := by
  cases pts with
  | nil => intro c hc; simp [splitChunks] at hc
  | cons y rest =>
    obtain ⟨t, p⟩ := y
    exact chunkLoop_ne_nil ((t, p) :: rest) t 1 [] (fun _ => ⟨p, rest, rfl⟩)

theorem splitChunks_bound (pts : List (Nat × Trkpt)) :
    ∀ c ∈ (splitChunks pts).1, ∀ x ∈ c,
      x.1 < chunkStartOf c + chunk_duration := by
  cases pts with
  | nil => intro c hc; simp [splitChunks] at hc
  | cons y rest =>
    obtain ⟨t, p⟩ := y
    exact chunkLoop_bound ((t, p) :: rest) t 1 []
      (fun h => absurd rfl h) (fun x hx => by simp at hx)
      (fun _ => ⟨p, rest, rfl⟩)

theorem splitChunks_chain (pts : List (Nat × Trkpt)) :
    List.Chain' chunkBoundaryRel (splitChunks pts).1 := by
  cases pts with
  | nil => simp [splitChunks]
  | cons y rest =>
    obtain ⟨t, p⟩ := y
    exact chunkLoop_chain ((t, p) :: rest) t 1 []
      (fun h => absurd rfl h) (fun _ => ⟨p, rest, rfl⟩)

theorem splitChunks_sorted {pts : List (Nat × Trkpt)}
    (h : List.Pairwise keyLE pts) :
    (∀ c ∈ (splitChunks pts).1, List.Pairwise keyLE c) ∧
      List.Pairwise (fun c c' => ∀ x ∈ c, ∀ y ∈ c', keyLE x y)
        (splitChunks pts).1 := by
  have hf := splitChunks_flatten pts
  rw [← hf] at h
  exact List.pairwise_flatten.mp h

/-! ### Dissection of the top-level conversion -/

theorem convert_cases (dir stem : String) (doc : GpxDoc) :
    (∃ e, extractLoop (allTrkpts doc) = .error e ∧
      convert_trkpt_to_wpt dir stem doc = ([], .error e)) ∨
    (extractLoop (allTrkpts doc) = .ok [] ∧
      convert_trkpt_to_wpt dir stem doc =
        ([], .ok (.noPoints "No track points with valid timestamps found"))) ∨
    (∃ pts, extractLoop (allTrkpts doc) = .ok pts ∧ pts ≠ [] ∧
      convert_trkpt_to_wpt dir stem doc =
        (numberChunks dir stem 1
            (splitChunks (List.insertionSort keyLE pts)).1,
          .ok (.converted
            (((numberChunks dir stem 1
                  (splitChunks (List.insertionSort keyLE pts)).1).map
                fun f => f.waypoints.length).sum)
            (splitChunks (List.insertionSort keyLE pts)).2))) := by
  cases he : extractLoop (allTrkpts doc) with
  | error e =>
    exact Or.inl ⟨e, rfl, by simp [convert_trkpt_to_wpt, he]⟩
  | ok pts =>
    by_cases hp : pts = []
    · subst hp
      exact Or.inr (Or.inl ⟨rfl, by simp [convert_trkpt_to_wpt, he]⟩)
    · exact Or.inr (Or.inr ⟨pts, rfl, hp,
        by simp [convert_trkpt_to_wpt, he, hp]⟩)

theorem convert_converted_shape {dir stem : String} {doc : GpxDoc}
    {total n : Nat}
    (h : (convert_trkpt_to_wpt dir stem doc).2 = .ok (.converted total n)) :
    ∃ pts, extractLoop (allTrkpts doc) = .ok pts ∧ pts ≠ [] ∧
      (convert_trkpt_to_wpt dir stem doc).1 =
        numberChunks dir stem 1
          (splitChunks (List.insertionSort keyLE pts)).1 ∧
      total = (((convert_trkpt_to_wpt dir stem doc).1.map
          fun f => f.waypoints.length).sum) ∧
      n = (splitChunks (List.insertionSort keyLE pts)).2 := by
  rcases convert_cases dir stem doc with
    ⟨e, -, hc⟩ | ⟨-, hc⟩ | ⟨pts, he, hp, hc⟩
  · rw [hc] at h
    simp at h
  · rw [hc] at h
    simp at h
  · have h' : (((numberChunks dir stem 1
        (splitChunks (List.insertionSort keyLE pts)).1).map
          fun f => f.waypoints.length).sum = total) ∧
        (splitChunks (List.insertionSort keyLE pts)).2 = n := by
      rw [hc] at h
      simpa using h
    refine ⟨pts, he, hp, by rw [hc], ?_, h'.2.symm⟩
    rw [hc]
    simpa using h'.1.symm

theorem convert_chunk_mem {doc : GpxDoc} {pts : List (Nat × Trkpt)}
    (he : extractLoop (allTrkpts doc) = .ok pts)
    {c : List (Nat × Trkpt)}
    (hc : c ∈ (splitChunks (List.insertionSort keyLE pts)).1)
    {x : Nat × Trkpt} (hx : x ∈ c) :
    x.2 ∈ allTrkpts doc ∧ timeKey? x.2.time = some x.1 := by
  have hmem : x ∈ List.insertionSort keyLE pts := by
    rw [← splitChunks_flatten (List.insertionSort keyLE pts)]
    exact List.mem_flatten.mpr ⟨c, hc, hx⟩
  exact extractLoop_ok_mem he x
    ((List.perm_insertionSort keyLE pts).mem_iff.mp hmem)

/-! ### Claim theorems -/

/-- C1: for every input GPX document that converts without error, the sum
of waypoints written across all produced chunk files equals the number of
track points (under any trk/trkseg) whose time child parses after the
Z-substitution — and the reported total, when the summary is printed,
equals that sum; every waypoint appearing in an output file carries a time
child, so points lacking one are dropped and never appear in any output
file. -/
theorem convert_total_waypoint_count (dir stem : String) (doc : GpxDoc)
    (h : ∃ o, (convert_trkpt_to_wpt dir stem doc).2 = .ok o) :
    (((convert_trkpt_to_wpt dir stem doc).1.map
        fun f => f.waypoints.length).sum =
      (allTrkpts doc).countP hasParsableTime) ∧
    (∀ total n,
      (convert_trkpt_to_wpt dir stem doc).2 = .ok (.converted total n) →
      total = (((convert_trkpt_to_wpt dir stem doc).1.map
        fun f => f.waypoints.length).sum)) ∧
    ∀ f ∈ (convert_trkpt_to_wpt dir stem doc).1, ∀ w ∈ f.waypoints,
      w.time.isSome := by
  obtain ⟨o, h⟩ := h
  rcases convert_cases dir stem doc with
    ⟨e, -, hc⟩ | ⟨he, hc⟩ | ⟨pts, he, hp, hc⟩
  · rw [hc] at h
    simp at h
  · refine ⟨?_, ?_, ?_⟩
    · rw [hc]
      exact extractLoop_ok_length he
    · intro total n h'
      rw [hc] at h'
      simp at h'
    · intro f hf
      rw [hc] at hf
      simp at hf
  · have hfiles : (convert_trkpt_to_wpt dir stem doc).1 =
        numberChunks dir stem 1
          (splitChunks (List.insertionSort keyLE pts)).1 := by
      rw [hc]
    have hsum : (((convert_trkpt_to_wpt dir stem doc).1.map
        fun f => f.waypoints.length).sum) =
        (allTrkpts doc).countP hasParsableTime := by
      rw [hfiles, numberChunks_sum_lengths, ← List.length_flatten,
        splitChunks_flatten, (List.perm_insertionSort keyLE pts).length_eq,
        extractLoop_ok_length he]
    refine ⟨hsum, ?_, ?_⟩
    · intro total n h'
      rw [hc] at h'
      simp only [Except.ok.injEq, ConvertOutcome.converted.injEq] at h'
      rw [hfiles, ← h'.1]
    · intro f hf w hw
      rw [hfiles] at hf
      obtain ⟨c, hcmem, hwpts⟩ := numberChunks_mem dir stem 1 _ hf
      rw [hwpts] at hw
      obtain ⟨p, hpmem, -, -, -, htime⟩ := wptList_mem 0 _ hw
      obtain ⟨x, hxmem, hxp⟩ := List.mem_map.mp hpmem
      obtain ⟨-, hkey⟩ := convert_chunk_mem he hcmem hxmem
      rw [htime, ← hxp]
      cases hxt : x.2.time with
      | none => rw [hxt] at hkey; simp [timeKey?] at hkey
      | some s => simp

/-- C7: a document in which no track point has a time child (including a
document with zero track points) is not an error: the conversion returns
the informational message, writes zero files, and the process exits with
code 0. -/
theorem no_timestamp_points_informational (dir stem : String) (doc : GpxDoc)
    (h : ∀ p ∈ allTrkpts doc, p.time = none) :
    convert_trkpt_to_wpt dir stem doc =
      ([], .ok (.noPoints "No track points with valid timestamps found")) ∧
    mainExitCode dir stem doc = 0 := by
  have he := extractLoop_all_none h
  constructor
  · simp [convert_trkpt_to_wpt, he]
  · simp [mainExitCode, convert_trkpt_to_wpt, he]

/-- C7 witness: the empty document takes the informational path with exit
code 0. -/
theorem no_timestamp_points_informational_witness :
    (∀ p ∈ allTrkpts docEmpty, p.time = none) ∧
    (convert_trkpt_to_wpt "." "out" docEmpty =
      ([], .ok (.noPoints "No track points with valid timestamps found")) ∧
    mainExitCode "." "out" docEmpty = 0) :=
  ⟨by decide, no_timestamp_points_informational "." "out" docEmpty
    (by decide)⟩

/-- C8 (amended): an unparsable timestamp is fatal — the run aborts with
exit code 1 — and because every timestamp is parsed during extraction
before any chunk is written, such a failing run writes no chunk files at
all. -/
theorem unparsable_timestamp_fatal_no_partial (dir stem : String)
    (doc : GpxDoc) (h : (allTrkpts doc).any badTime = true) :
    (∃ e, (convert_trkpt_to_wpt dir stem doc).2 = .error e) ∧
    (convert_trkpt_to_wpt dir stem doc).1 = [] ∧
    mainExitCode dir stem doc = 1 := by
  obtain ⟨e, he⟩ := extractLoop_error_of_any h
  exact ⟨⟨e, by simp [convert_trkpt_to_wpt, he]⟩,
    by simp [convert_trkpt_to_wpt, he],
    by simp [mainExitCode, convert_trkpt_to_wpt, he]⟩

/-- C8 witness: on `docC8` the amended claim holds concretely. -/
theorem unparsable_timestamp_fatal_no_partial_witness :
    ((allTrkpts docC8).any badTime = true) ∧
    ((∃ e, (convert_trkpt_to_wpt "." "out" docC8).2 = .error e) ∧
    (convert_trkpt_to_wpt "." "out" docC8).1 = [] ∧
    mainExitCode "." "out" docC8 = 1) :=
  ⟨by decide, unparsable_timestamp_fatal_no_partial "." "out" docC8
    (by decide)⟩

/-- C8 counterexample: on `docC8` — whose first two points carry parsable
timestamps more than 120 seconds apart, so that on their own they produce
two chunk files (third conjunct, on `docC8good`) — the run fails on the
later unparsable timestamp and leaves zero files on disk, refuting the
claim that chunk files already flushed for earlier points remain. -/
theorem no_partial_output_counterexample :
    (convert_trkpt_to_wpt "." "out" docC8).2 = .error "bad" ∧
    (convert_trkpt_to_wpt "." "out" docC8).1 = [] ∧
    (convert_trkpt_to_wpt "." "out" docC8good).1.length = 2 := by
  decide

/-- C1 witness: on the six-point example document (five parsable
timestamps, one point without a time child) the conversion succeeds with
five waypoints over three files. -/
theorem convert_total_waypoint_count_witness :
    ((convert_trkpt_to_wpt "." "out" exDoc).2 =
      .ok (.converted 5 3)) ∧
    ((((convert_trkpt_to_wpt "." "out" exDoc).1.map
        fun f => f.waypoints.length).sum =
      (allTrkpts exDoc).countP hasParsableTime) ∧
    (∀ total n,
      (convert_trkpt_to_wpt "." "out" exDoc).2 = .ok (.converted total n) →
      total = (((convert_trkpt_to_wpt "." "out" exDoc).1.map
        fun f => f.waypoints.length).sum)) ∧
    ∀ f ∈ (convert_trkpt_to_wpt "." "out" exDoc).1, ∀ w ∈ f.waypoints,
      w.time.isSome) :=
  ⟨by decide, convert_total_waypoint_count "." "out" exDoc
    ⟨.converted 5 3, by decide⟩⟩

/-- C10: no produced chunk file is empty, and the chunk count reported by
the final summary line equals exactly the number of files written, which
is at least one whenever the summary is reached. -/
theorem no_empty_chunk_files (dir stem : String) (doc : GpxDoc)
    (total n : Nat)
    (h : (convert_trkpt_to_wpt dir stem doc).2 = .ok (.converted total n)) :
    (∀ f ∈ (convert_trkpt_to_wpt dir stem doc).1, f.waypoints ≠ []) ∧
    (convert_trkpt_to_wpt dir stem doc).1.length = n ∧ 1 ≤ n := by
  obtain ⟨pts, he, hp, hfiles, -, hn⟩ := convert_converted_shape h
  have hsne : List.insertionSort keyLE pts ≠ [] := by
    intro hs
    apply hp
    have hlen := (List.perm_insertionSort keyLE pts).length_eq
    rw [hs] at hlen
    exact List.eq_nil_of_length_eq_zero hlen.symm
  have hchne : (splitChunks (List.insertionSort keyLE pts)).1 ≠ [] := by
    intro hcs
    apply hsne
    have hfl := splitChunks_flatten (List.insertionSort keyLE pts)
    rw [hcs] at hfl
    simpa using hfl.symm
  refine ⟨?_, ?_, ?_⟩
  · intro f hf
    rw [hfiles] at hf
    obtain ⟨c, hcmem, hwpts⟩ := numberChunks_mem dir stem 1 _ hf
    have hcne := splitChunks_ne_nil _ c hcmem
    rw [hwpts]
    intro hemp
    apply hcne
    have hlen := congrArg List.length hemp
    rw [wptList_length, List.length_map] at hlen
    exact List.eq_nil_of_length_eq_zero (by simpa using hlen)
  · rw [hfiles, numberChunks_length, ← splitChunks_count hsne, hn]
  · rw [hn, splitChunks_count hsne]
    have := List.length_pos.mpr hchne
    omega

/-- C10 witness: on the example document the three produced files are all
non-empty and the reported chunk count 3 equals the file count. -/
theorem no_empty_chunk_files_witness :
    ((convert_trkpt_to_wpt "." "out" exDoc).2 = .ok (.converted 5 3)) ∧
    ((∀ f ∈ (convert_trkpt_to_wpt "." "out" exDoc).1, f.waypoints ≠ []) ∧
    (convert_trkpt_to_wpt "." "out" exDoc).1.length = 3 ∧ 1 ≤ 3) :=
  ⟨by decide, no_empty_chunk_files "." "out" exDoc 5 3 (by decide)⟩

/-- C9: the k-th produced chunk file (0-based) lives in the directory of
the requested output path, is named from the requested stem with the
1-based chunk number zero-padded to two digits, and its root element
carries exactly the attributes version, creator and the GPX 1.1 namespace
declaration. -/
theorem chunk_file_naming (dir stem : String) (doc : GpxDoc) (total n : Nat)
    (h : (convert_trkpt_to_wpt dir stem doc).2 = .ok (.converted total n)) :
    ∀ (k : Nat) (hk : k < (convert_trkpt_to_wpt dir stem doc).1.length),
      ((convert_trkpt_to_wpt dir stem doc).1.get ⟨k, hk⟩).dir = dir ∧
      ((convert_trkpt_to_wpt dir stem doc).1.get ⟨k, hk⟩).filename =
        stem ++ "_chunk_" ++ pyPad 2 (k + 1) ++ ".gpx" ∧
      ((convert_trkpt_to_wpt dir stem doc).1.get ⟨k, hk⟩).rootAttrs =
        [("version", "1.1"), ("creator", "GPX Converter"),
         ("xmlns", "http://www.topografix.com/GPX/1/1")] := by
  obtain ⟨pts, -, -, hfiles, -, -⟩ := convert_converted_shape h
  intro k hk
  have hget := List.get_of_eq hfiles ⟨k, hk⟩
  have hk2 : k < (splitChunks (List.insertionSort keyLE pts)).1.length := by
    have hk' := hk
    rw [hfiles, numberChunks_length] at hk'
    exact hk'
  rw [hget, numberChunks_get dir stem 1 _ k hk2]
  rw [Nat.add_comm 1 k]
  exact ⟨rfl, rfl, rfl⟩

/-- C9 witness: on the example document the first file is named
`out_chunk_01.gpx` in the requested directory with the fixed root
attributes (applied at index 0 of the three files). -/
theorem chunk_file_naming_witness :
    ((convert_trkpt_to_wpt "." "out" exDoc).2 = .ok (.converted 5 3)) ∧
    (∀ (k : Nat) (hk : k < (convert_trkpt_to_wpt "." "out" exDoc).1.length),
      ((convert_trkpt_to_wpt "." "out" exDoc).1.get ⟨k, hk⟩).dir = "." ∧
      ((convert_trkpt_to_wpt "." "out" exDoc).1.get ⟨k, hk⟩).filename =
        "out" ++ "_chunk_" ++ pyPad 2 (k + 1) ++ ".gpx" ∧
      ((convert_trkpt_to_wpt "." "out" exDoc).1.get ⟨k, hk⟩).rootAttrs =
        [("version", "1.1"), ("creator", "GPX Converter"),
         ("xmlns", "http://www.topografix.com/GPX/1/1")]) :=
  ⟨by decide, chunk_file_naming "." "out" exDoc 5 3 (by decide)⟩

/-- C5: in every produced chunk file, the k-th waypoint (0-based, in file
order) is named `WPT` followed by k zero-padded to three digits; the
counter starts from zero in every file and does not persist across
chunks. -/
theorem waypoint_names_per_chunk (dir stem : String) (doc : GpxDoc)
    (total n : Nat)
    (h : (convert_trkpt_to_wpt dir stem doc).2 = .ok (.converted total n)) :
    ∀ f ∈ (convert_trkpt_to_wpt dir stem doc).1,
      ∀ (k : Nat) (hk : k < f.waypoints.length),
        (f.waypoints.get ⟨k, hk⟩).name = "WPT" ++ pyPad 3 k := by
  obtain ⟨pts, -, -, hfiles, -, -⟩ := convert_converted_shape h
  intro f hf k hk
  rw [hfiles] at hf
  obtain ⟨c, -, hwpts⟩ := numberChunks_mem dir stem 1 _ hf
  have hget := List.get_of_eq hwpts ⟨k, hk⟩
  rw [hget]
  have hk2 : k < (wptList 0 (c.map Prod.snd)).length := by
    rw [← hwpts]
    exact hk
  have hname := wptList_name_get 0 (c.map Prod.snd) k hk2
  rw [Nat.zero_add] at hname
  exact hname

/-- C5 witness: on the example document every file's waypoints are named
WPT000, WPT001, ... from the start of that file. -/
theorem waypoint_names_per_chunk_witness :
    ((convert_trkpt_to_wpt "." "out" exDoc).2 = .ok (.converted 5 3)) ∧
    (∀ f ∈ (convert_trkpt_to_wpt "." "out" exDoc).1,
      ∀ (k : Nat) (hk : k < f.waypoints.length),
        (f.waypoints.get ⟨k, hk⟩).name = "WPT" ++ pyPad 3 k) :=
  ⟨by decide, waypoint_names_per_chunk "." "out" exDoc 5 3 (by decide)⟩

/-- C6: `write_chunk` copies every point's lat and lon attributes and its
optional ele and time child texts verbatim, in order, into the emitted
waypoints (the Z-to-0 substitution touches only the parsing, never the
written text); concretely, the example point with elevation `123.4` and
time `2024-01-01T10:00:00Z` is emitted with both texts character-for-
character unmodified. -/
theorem write_chunk_preserves_fields :
    (∀ (dir stem : String) (cn : Nat) (pts : List Trkpt),
      (write_chunk dir stem cn pts).waypoints.map
          (fun w => (w.lat, w.lon, w.ele, w.time)) =
        pts.map (fun p => (p.lat, p.lon, p.ele, p.time))) ∧
    (write_chunk "." "out" 1 [pC6]).waypoints =
      [{ lat := "47.1", lon := "8.5", ele := some "123.4",
         time := some "2024-01-01T10:00:00Z", name := "WPT000" }] :=
  ⟨fun _ _ _ pts => wptList_fields 0 pts, by decide⟩

/-- C3 (code bug): the source's substitution turns the example time text
`2024-06-01T12:00:00Z` into `2024-06-01T12:00:000`, whose two-digit
seconds field is followed by a stray digit, so `fromisoformat` rejects it
and a document containing this time text aborts the run with exit code 1;
the intermediate form the specification asserts (`2024-06-01T12:00:00.0`)
would indeed parse to wall-clock 2024-06-01 12:00:00 (final conjunct), but
it is not what the code produces. -/
theorem z_substitution_unparsable :
    replaceZ "2024-06-01T12:00:00Z" = "2024-06-01T12:00:000" ∧
    fromisoformat (replaceZ "2024-06-01T12:00:00Z") = none ∧
    (convert_trkpt_to_wpt "." "out" docC3).2 =
      .error "2024-06-01T12:00:000" ∧
    mainExitCode "." "out" docC3 = 1 ∧
    fromisoformat "2024-06-01T12:00:00.0" =
      some ⟨2024, 6, 1, 12, 0, 0, 0⟩ :=
  ⟨by decide, by decide, by decide, by decide, by decide⟩

/-- C2: chunk assignment obeys the boundary law — every point placed in a
chunk has timestamp strictly below that chunk's first point's timestamp
plus 120 seconds, and every chunk after the first opens at a timestamp at
least 120 seconds after the previous chunk's start — and five points at
T, T+10s, T+130s, T+140s, T+300s split into exactly the three chunks
`[T, T+10s]`, `[T+130s, T+140s]`, `[T+300s]` with reported chunk number
3, confirming that the boundary re-anchors at each new chunk's first
point. -/
theorem chunk_boundary_law (pts : List (Nat × Trkpt))
    (_hsorted : List.Pairwise keyLE pts) :
    (∀ c ∈ (splitChunks pts).1, ∀ x ∈ c,
      x.1 < chunkStartOf c + chunk_duration) ∧
    List.Chain' chunkBoundaryRel (splitChunks pts).1 ∧
    (∀ (T : Nat) (p1 p2 p3 p4 p5 : Trkpt),
      splitChunks [(T, p1), (T + 10000000, p2), (T + 130000000, p3),
          (T + 140000000, p4), (T + 300000000, p5)] =
        ([[(T, p1), (T + 10000000, p2)],
          [(T + 130000000, p3), (T + 140000000, p4)],
          [(T + 300000000, p5)]], 3)) := by
  refine ⟨splitChunks_bound pts, splitChunks_chain pts, ?_⟩
  intro T p1 p2 p3 p4 p5
  show chunkLoop _ T 1 [] = _
  norm_num [chunkLoop, chunk_duration, Nat.add_assoc, add_le_add_iff_left,
    add_le_iff_nonpos_right, List.cons_ne_nil]

/-- C2 witness: the boundary law applied to a concrete sorted two-point
list. -/
theorem chunk_boundary_law_witness :
    List.Pairwise keyLE [(0, pC6), (200000000, pC6)] ∧
    ((∀ c ∈ (splitChunks [(0, pC6), (200000000, pC6)]).1, ∀ x ∈ c,
      x.1 < chunkStartOf c + chunk_duration) ∧
    List.Chain' chunkBoundaryRel
      (splitChunks [(0, pC6), (200000000, pC6)]).1 ∧
    (∀ (T : Nat) (p1 p2 p3 p4 p5 : Trkpt),
      splitChunks [(T, p1), (T + 10000000, p2), (T + 130000000, p3),
          (T + 140000000, p4), (T + 300000000, p5)] =
        ([[(T, p1), (T + 10000000, p2)],
          [(T + 130000000, p3), (T + 140000000, p4)],
          [(T + 300000000, p5)]], 3))) :=
  ⟨by decide, chunk_boundary_law [(0, pC6), (200000000, pC6)] (by decide)⟩

/-! ### Ordering helpers for C4 -/

theorem wptList_key_pairwise {c : List (Nat × Trkpt)} (k : Nat)
    (hkey : ∀ x ∈ c, timeKey? x.2.time = some x.1)
    (hpair : List.Pairwise keyLE c) :
    List.Chain' (fun w w' => wKeyD w ≤ wKeyD w')
      (wptList k (c.map Prod.snd)) := by
  have hp1 : List.Pairwise (fun x y : Nat × Trkpt =>
      (timeKey? x.2.time).getD 0 ≤ (timeKey? y.2.time).getD 0) c := by
    refine hpair.imp_of_mem ?_
    intro a b ha hb hab
    rw [hkey a ha, hkey b hb]
    exact hab
  have h1 : (wptList k (c.map Prod.snd)).map Waypoint.time =
      c.map (fun x => x.2.time) := by
    rw [wptList_map_time, List.map_map]
    rfl
  have hc2 : List.Chain' (fun t t' : Option String =>
      (timeKey? t).getD 0 ≤ (timeKey? t').getD 0)
      (c.map fun x => x.2.time) :=
    ((@List.pairwise_map _ _ (fun x : Nat × Trkpt => x.2.time)
      (fun t t' => (timeKey? t).getD 0 ≤ (timeKey? t').getD 0) c).mpr
        hp1).chain'
  rw [← h1] at hc2
  exact (List.chain'_map Waypoint.time).mp hc2

theorem numberChunks_chain'
    (T : List (Nat × Trkpt) → List (Nat × Trkpt) → Prop)
    (S : ChunkFile → ChunkFile → Prop) (dir stem : String)
    (hST : ∀ (m m' : Nat) (c c' : List (Nat × Trkpt)), T c c' →
      S (write_chunk dir stem m (c.map Prod.snd))
        (write_chunk dir stem m' (c'.map Prod.snd))) :
    ∀ (n : Nat) (cs : List (List (Nat × Trkpt))), List.Chain' T cs →
      List.Chain' S (numberChunks dir stem n cs) := by
  intro n cs
  induction cs generalizing n with
  | nil => intro _; simp [numberChunks]
  | cons c cs ih =>
    intro hch
    cases cs with
    | nil => simp [numberChunks]
    | cons c' cs' =>
      rw [List.chain'_cons] at hch
      show List.Chain' S (write_chunk dir stem n (c.map Prod.snd) ::
        write_chunk dir stem (n + 1) (c'.map Prod.snd) ::
          numberChunks dir stem (n + 2) cs')
      rw [List.chain'_cons]
      exact ⟨hST n (n + 1) c c' hch.1, ih (n + 1) hch.2⟩

/-- C4: within every produced chunk file the waypoints' parsed timestamps
are non-decreasing in file order, every timestamp of chunk N is at most
every timestamp of chunk N+1, and every emitted waypoint's time text has a
parse (so the compared keys are meaningful) — the writer sorts all
retained points by ascending timestamp before chunking, regardless of
document order. -/
theorem chunk_files_time_ordered (dir stem : String) (doc : GpxDoc)
    (total n : Nat)
    (h : (convert_trkpt_to_wpt dir stem doc).2 = .ok (.converted total n)) :
    (∀ f ∈ (convert_trkpt_to_wpt dir stem doc).1,
      List.Chain' (fun w w' => wKeyD w ≤ wKeyD w') f.waypoints) ∧
    List.Chain' (fun f f' => ∀ w ∈ f.waypoints, ∀ w' ∈ f'.waypoints,
      wKeyD w ≤ wKeyD w') (convert_trkpt_to_wpt dir stem doc).1 ∧
    (∀ f ∈ (convert_trkpt_to_wpt dir stem doc).1, ∀ w ∈ f.waypoints,
      (timeKey? w.time).isSome) := by
  obtain ⟨pts, he, -, hfiles, -, -⟩ := convert_converted_shape h
  have hsorted : List.Pairwise keyLE (List.insertionSort keyLE pts) :=
    List.sorted_insertionSort keyLE pts
  obtain ⟨hin, hcross⟩ := splitChunks_sorted hsorted
  refine ⟨?_, ?_, ?_⟩
  · intro f hf
    rw [hfiles] at hf
    obtain ⟨c, hcmem, hwpts⟩ := numberChunks_mem dir stem 1 _ hf
    rw [hwpts]
    exact wptList_key_pairwise 0
      (fun x hx => (convert_chunk_mem he hcmem hx).2) (hin c hcmem)
  · rw [hfiles]
    refine numberChunks_chain'
      (fun c c' => ∀ x ∈ c, ∀ y ∈ c',
        (timeKey? x.2.time).getD 0 ≤ (timeKey? y.2.time).getD 0)
      (fun f f' => ∀ w ∈ f.waypoints, ∀ w' ∈ f'.waypoints,
        wKeyD w ≤ wKeyD w') dir stem ?_ 1 _ ?_
    · intro m m' c c' hT w hw w' hw'
      obtain ⟨p, hpmem, -, -, -, htime⟩ := wptList_mem 0 _ hw
      obtain ⟨x, hxmem, hxp⟩ := List.mem_map.mp hpmem
      obtain ⟨q, hqmem, -, -, -, htime'⟩ := wptList_mem 0 _ hw'
      obtain ⟨y, hymem, hyq⟩ := List.mem_map.mp hqmem
      have hxy := hT x hxmem y hymem
      simp only [wKeyD, htime, htime', ← hxp, ← hyq]
      exact hxy
    · refine (hcross.imp_of_mem ?_).chain'
      intro c c' hc hc' hcc x hx y hy
      rw [(convert_chunk_mem he hc hx).2, (convert_chunk_mem he hc' hy).2]
      exact hcc x hx y hy
  · intro f hf w hw
    rw [hfiles] at hf
    obtain ⟨c, hcmem, hwpts⟩ := numberChunks_mem dir stem 1 _ hf
    rw [hwpts] at hw
    obtain ⟨p, hpmem, -, -, -, htime⟩ := wptList_mem 0 _ hw
    obtain ⟨x, hxmem, hxp⟩ := List.mem_map.mp hpmem
    rw [htime, ← hxp, (convert_chunk_mem he hcmem hxmem).2]
    rfl

/-- C4 witness: on the scrambled-order example document the three files
are internally ordered and mutually ordered, with all keys present. -/
theorem chunk_files_time_ordered_witness :
    ((convert_trkpt_to_wpt "." "out" exDoc).2 = .ok (.converted 5 3)) ∧
    ((∀ f ∈ (convert_trkpt_to_wpt "." "out" exDoc).1,
      List.Chain' (fun w w' => wKeyD w ≤ wKeyD w') f.waypoints) ∧
    List.Chain' (fun f f' => ∀ w ∈ f.waypoints, ∀ w' ∈ f'.waypoints,
      wKeyD w ≤ wKeyD w') (convert_trkpt_to_wpt "." "out" exDoc).1 ∧
    (∀ f ∈ (convert_trkpt_to_wpt "." "out" exDoc).1, ∀ w ∈ f.waypoints,
      (timeKey? w.time).isSome)) :=
  ⟨by decide, chunk_files_time_ordered "." "out" exDoc 5 3 (by decide)⟩

end GpxConv
